import Mathlib

/-!
Verification of the DirectoryWatcher behavioural contract.

The repository provides the unit test
`clang/unittests/DirectoryWatcher/DirectoryWatcherTest.cpp`, which pins
down the observable contract of `clang::DirectoryWatcher`.  The event
record, its equality, and the `VerifyingConsumer` state machine are
embedded here directly from that source file.  The watcher engine itself
(scanner, monitor, dispatcher) is not part of the sources, so its event
stream is modelled from the specification and the claims about it are
settled against that model.
-/

namespace DirWatcher

/-- Modelled from the spec: the event-kind taxonomy of
`DirectoryWatcher::Event::EventKind` (the header is not among the
sources; constructor order follows `eventKindToString` in the test). -/
inductive EventKind
  | Removed
  | Modified
  | WatchedDirRemoved
  | WatcherGotInvalidated
deriving DecidableEq

/-- Modelled from the spec: the event record
`{ filename : string, kind : EventKind }` of `DirectoryWatcher::Event`. -/
structure Event where
  Filename : String
  Kind : EventKind
deriving DecidableEq

/-- The `static_cast<int>` of the C++ enum-class value: constructors are
numbered in declaration order starting from 0. -/
def EventKind.toCInt : EventKind → Int
  | .Removed => 0
  | .Modified => 1
  | .WatchedDirRemoved => 2
  | .WatcherGotInvalidated => 3

/-- Embeds `clang::operator==(const DirectoryWatcher::Event &, const
DirectoryWatcher::Event &)` from the test source: compares `Filename`
and the integer casts of `Kind`. -/
def eventEq (lhs rhs : Event) : Bool :=
  lhs.Filename == rhs.Filename && lhs.Kind.toCInt == rhs.Kind.toCInt

theorem EventKind.toCInt_inj (a b : EventKind) (h : a.toCInt = b.toCInt) :
    a = b := by
  cases a <;> cases b <;> simp_all [EventKind.toCInt]

theorem eventEq_iff_eq (l r : Event) : eventEq l r = true ↔ l = r := by
  cases l with
  | mk lf lk =>
    cases r with
    | mk rf rk =>
      simp only [eventEq, Bool.and_eq_true, beq_iff_eq, Event.mk.injEq]
      exact and_congr Iff.rfl
        ⟨fun h => EventKind.toCInt_inj lk rk h, fun h => h ▸ rfl⟩

/-- Erase the first element equal (under `eventEq`) to `E`; this is
`container.erase(std::find(container.begin(), container.end(), E))`
when the find succeeded, and the identity when it did not. -/
def eraseFirst : List Event → Event → List Event
  | [], _ => []
  | x :: xs, E => if eventEq x E then xs else x :: eraseFirst xs E

/-- `std::find(c.begin(), c.end(), E) != c.end()`. -/
def findIn (l : List Event) (E : Event) : Bool :=
  l.any (fun x => eventEq x E)

/-- Embeds the state of `VerifyingConsumer` from the test source (the
mutex and condition variable carry no observable state). -/
structure VerifyingConsumer where
  ExpectedInitial : List Event
  ExpectedNonInitial : List Event
  OptionalNonInitial : List Event
  UnexpectedInitial : List Event
  UnexpectedNonInitial : List Event

/-- Embeds `VerifyingConsumer::consumeInitial`: an event found in
`ExpectedInitial` is erased from it, otherwise it is recorded in
`UnexpectedInitial`. -/
def VerifyingConsumer.consumeInitial (c : VerifyingConsumer) (E : Event) :
    VerifyingConsumer :=
  if findIn c.ExpectedInitial E then
    { c with ExpectedInitial := eraseFirst c.ExpectedInitial E }
  else
    { c with UnexpectedInitial := c.UnexpectedInitial ++ [E] }

/-- Embeds `VerifyingConsumer::consumeNonInitial`: an event found in
`ExpectedNonInitial` is erased from it; otherwise, if found in
`OptionalNonInitial` it is erased from that list; otherwise it is
recorded in `UnexpectedNonInitial`. -/
def VerifyingConsumer.consumeNonInitial (c : VerifyingConsumer) (E : Event) :
    VerifyingConsumer :=
  if findIn c.ExpectedNonInitial E then
    { c with ExpectedNonInitial := eraseFirst c.ExpectedNonInitial E }
  else if findIn c.OptionalNonInitial E then
    { c with OptionalNonInitial := eraseFirst c.OptionalNonInitial E }
  else
    { c with UnexpectedNonInitial := c.UnexpectedNonInitial ++ [E] }

/-- Embeds `VerifyingConsumer::consume(Event, bool)`. -/
def VerifyingConsumer.consume (c : VerifyingConsumer) (E : Event)
    (IsInitial : Bool) : VerifyingConsumer :=
  if IsInitial then c.consumeInitial E else c.consumeNonInitial E

/-- Embeds `VerifyingConsumer::consume(ArrayRef, bool)` lifted to a whole
delivered stream: each element pairs an event with its batch's
`IsInitial` flag (per-event consumption is independent of batching). -/
def consumeAll (c : VerifyingConsumer) (Es : List (Event × Bool)) :
    VerifyingConsumer :=
  Es.foldl (fun acc p => acc.consume p.1 p.2) c

/-- Embeds `VerifyingConsumer::result`: `true` when every list is empty,
`false` when some unexpected event was recorded, no value otherwise. -/
def VerifyingConsumer.result (c : VerifyingConsumer) : Option Bool :=
  if c.ExpectedInitial.isEmpty && c.ExpectedNonInitial.isEmpty
      && c.UnexpectedInitial.isEmpty && c.UnexpectedNonInitial.isEmpty then
    some true
  else if !c.UnexpectedInitial.isEmpty || !c.UnexpectedNonInitial.isEmpty then
    some false
  else
    none

/-- Modelled from the spec: a live filesystem action on a direct entry of
the watched directory (§6 external collaborator; the watcher engine
reacting to these is not among the sources). -/
inductive FsAction
  | createEntry (name : String)
  | modifyEntry (name : String)
  | removeEntry (name : String)
  | touchEntry (name : String) (renotify : Bool)

/-- Modelled from the spec (§4.5 state machine): how a watch reaches the
terminal `Invalidated` state — explicit disposal, or removal of the
watched directory itself. -/
inductive Termination
  | dispose
  | dirRemoved

/-- Modelled from the spec (§4.2 Scanner): one `Modified` event per entry
present in the watched directory at creation time. -/
def scanEvents (entries : List String) : List Event :=
  entries.map (fun n => { Filename := n, Kind := EventKind.Modified })

/-- Modelled from the spec (§4.4 rule 1): the scan is flushed as exactly
one batch whose events all carry `isInitial = true`. -/
def initialBatch (entries : List String) : List (Event × Bool) :=
  (scanEvents entries).map (fun e => (e, true))

/-- Modelled from the spec (§4.3 Monitor): translation of one raw change
notification into events — creation or content change yields `Modified`,
removal yields `Removed`, and a metadata-only touch MAY (platform
dependent, here the `renotify` flag) yield a duplicate `Modified`. -/
def liveEvent : FsAction → List Event
  | .createEntry n => [{ Filename := n, Kind := EventKind.Modified }]
  | .modifyEntry n => [{ Filename := n, Kind := EventKind.Modified }]
  | .removeEntry n => [{ Filename := n, Kind := EventKind.Removed }]
  | .touchEntry n renotify =>
      if renotify then [{ Filename := n, Kind := EventKind.Modified }] else []

/-- Modelled from the spec (§4.3, §5): live events are delivered in the
order the Monitor observed the underlying notifications. -/
def liveStream : List FsAction → List Event
  | [] => []
  | a :: rest => liveEvent a ++ liveStream rest

/-- Modelled from the spec (§4.3, §4.5): the terminal events — disposal
yields `WatcherGotInvalidated`; removal of the watched directory yields
`WatchedDirRemoved` immediately followed by `WatcherGotInvalidated`;
both carry an empty filename. -/
def terminalEvents : Termination → List Event
  | .dispose => [{ Filename := "", Kind := EventKind.WatcherGotInvalidated }]
  | .dirRemoved =>
      [{ Filename := "", Kind := EventKind.WatchedDirRemoved },
       { Filename := "", Kind := EventKind.WatcherGotInvalidated }]

/-- Modelled from the spec: the stream observed on a still-live watch —
the initial batch, then the live events with `isInitial = false`. -/
def observedLive (entries : List String) (actions : List FsAction) :
    List (Event × Bool) :=
  initialBatch entries ++ (liveStream actions).map (fun e => (e, false))

/-- Modelled from the spec: the complete delivered stream of a watch that
terminated via `t`, as event / `isInitial` pairs in delivery order. -/
def runWatch (entries : List String) (actions : List FsAction)
    (t : Termination) : List (Event × Bool) :=
  observedLive entries actions ++ (terminalEvents t).map (fun e => (e, false))

/-- Modelled from the spec (§4.4 rule 4): `create` takes a
`waitForInitialSync` flag, but the two startup modes differ only in when
the creation call returns — the eventual delivered stream is the same. -/
def createStream (waitForInitialSync : Bool) (entries : List String)
    (actions : List FsAction) (t : Termination) : List (Event × Bool) :=
  let _ := waitForInitialSync
  runWatch entries actions t

/-- Events of the stream delivered with `isInitial = true`. -/
def initialEvents (tr : List (Event × Bool)) : List Event :=
  (tr.filter (fun p => p.2)).map Prod.fst

/-- Events of the stream delivered with `isInitial = false`. -/
def nonInitialEvents (tr : List (Event × Bool)) : List Event :=
  (tr.filter (fun p => !p.2)).map Prod.fst

/-- Number of events of kind `k` in a list of events. -/
def countKind (k : EventKind) (l : List Event) : Nat :=
  (l.filter (fun e => decide (e.Kind = k))).length

/-- Number of occurrences of `E` (under the test's `operator==`). -/
def countEvent (E : Event) (l : List Event) : Nat :=
  (l.filter (fun x => eventEq x E)).length

/-- C8: two events compare equal under the test's `operator==` exactly
when they agree on both `Filename` and `Kind`. -/
theorem spec_C8_event_equality (l r : Event) :
    eventEq l r = true ↔ l.Filename = r.Filename ∧ l.Kind = r.Kind := by
  rw [eventEq_iff_eq]
  cases l with
  | mk lf lk => cases r with
    | mk rf rk => simp [Event.mk.injEq]

/-- C8 witness: a concrete evaluation of the equality contract. -/
theorem spec_C8_event_equality_witness :
    eventEq { Filename := "a", Kind := EventKind.Modified }
      { Filename := "a", Kind := EventKind.Modified } = true :=
  (spec_C8_event_equality _ _).mpr ⟨rfl, rfl⟩

theorem result_true_iff (c : VerifyingConsumer) :
    c.result = some true ↔
      c.ExpectedInitial = [] ∧ c.ExpectedNonInitial = [] ∧
      c.UnexpectedInitial = [] ∧ c.UnexpectedNonInitial = [] := by
  unfold VerifyingConsumer.result
  split
  next h =>
    simp only [Bool.and_eq_true, List.isEmpty_iff] at h
    simp [h.1.1.1, h.1.1.2, h.1.2, h.2]
  next h =>
    have h' : ¬(c.ExpectedInitial = [] ∧ c.ExpectedNonInitial = [] ∧
        c.UnexpectedInitial = [] ∧ c.UnexpectedNonInitial = []) := by
      intro hc
      exact h (by simp [List.isEmpty_iff, hc.1, hc.2.1, hc.2.2.1, hc.2.2.2])
    split <;> simpa using h'

theorem result_false_iff (c : VerifyingConsumer) :
    c.result = some false ↔
      (c.UnexpectedInitial ≠ [] ∨ c.UnexpectedNonInitial ≠ []) := by
  unfold VerifyingConsumer.result
  split
  next h =>
    simp only [Bool.and_eq_true, List.isEmpty_iff] at h
    simp [h.1.2, h.2]
  next h =>
    split
    next h2 =>
      simp only [Bool.or_eq_true, Bool.not_eq_true', List.isEmpty_eq_false] at h2
      simpa using h2
    next h2 =>
      simp only [Bool.or_eq_true, Bool.not_eq_true', List.isEmpty_eq_false,
        not_or] at h2
      simpa using h2

theorem result_none_iff (c : VerifyingConsumer) :
    c.result = none ↔
      ((c.ExpectedInitial ≠ [] ∨ c.ExpectedNonInitial ≠ []) ∧
       c.UnexpectedInitial = [] ∧ c.UnexpectedNonInitial = []) := by
  unfold VerifyingConsumer.result
  split
  next h =>
    simp only [Bool.and_eq_true, List.isEmpty_iff] at h
    simp [h.1.1.1, h.1.1.2]
  next h =>
    split
    next h2 =>
      simp only [Bool.or_eq_true, Bool.not_eq_true', List.isEmpty_eq_false] at h2
      simp only [reduceCtorEq, false_iff]
      intro hc
      rcases h2 with h2 | h2
      · exact h2 hc.2.1
      · exact h2 hc.2.2
    next h2 =>
      simp only [Bool.or_eq_true, Bool.not_eq_true', List.isEmpty_eq_false,
        not_or, not_not] at h2
      have h3 : ¬(c.ExpectedInitial = [] ∧ c.ExpectedNonInitial = []) := by
        intro hc
        exact h (by simp [List.isEmpty_iff, hc.1, hc.2, h2.1, h2.2])
      simp only [true_iff]
      exact ⟨by tauto, h2.1, h2.2⟩

/-- Once some unexpected event has been recorded. -/
def hasUnexpected (c : VerifyingConsumer) : Prop :=
  c.UnexpectedInitial ≠ [] ∨ c.UnexpectedNonInitial ≠ []

theorem consume_hasUnexpected (c : VerifyingConsumer) (E : Event) (b : Bool)
    (h : hasUnexpected c) : hasUnexpected (c.consume E b) := by
  cases b with
  | true =>
    show hasUnexpected (c.consumeInitial E)
    unfold VerifyingConsumer.consumeInitial
    split
    · exact h
    · rcases h with h | h
      · exact Or.inl (by simp)
      · exact Or.inr h
  | false =>
    show hasUnexpected (c.consumeNonInitial E)
    unfold VerifyingConsumer.consumeNonInitial
    split
    · exact h
    · split
      · exact h
      · rcases h with h | h
        · exact Or.inl h
        · exact Or.inr (by simp)

theorem consumeAll_hasUnexpected (c : VerifyingConsumer)
    (Es : List (Event × Bool)) (h : hasUnexpected c) :
    hasUnexpected (consumeAll c Es) := by
  induction Es generalizing c with
  | nil => exact h
  | cons p rest ih => exact ih _ (consume_hasUnexpected c p.1 p.2 h)

/-- C9 counterexample state: no expected event remains, one unexpected
initial event has been recorded. -/
def cexC9 : VerifyingConsumer :=
  ⟨[], [], [], [{ Filename := "x", Kind := EventKind.Modified }], []⟩

/-- C9: the claim states `result` returns `false` iff some expected
events remain AND some unexpected event was recorded; this fails when no
expected event remains yet an unexpected one was recorded — `result` is
`some false` there although the claimed right-hand side is false. -/
theorem spec_C9_counterexample :
    ¬(cexC9.result = some false ↔
       ((cexC9.ExpectedInitial ≠ [] ∨ cexC9.ExpectedNonInitial ≠ []) ∧
        (cexC9.UnexpectedInitial ≠ [] ∨ cexC9.UnexpectedNonInitial ≠ []))) := by
  decide

/-- C9 (amended): `result` returns `true` iff all four lists are empty;
it returns `false` iff at least one unexpected event has been recorded
(whether or not expected events remain); it returns no value iff some
expected events remain and none unexpected; hence once any unexpected
event is recorded the verdict can never become `true`. -/
theorem spec_C9_result_verdict (c : VerifyingConsumer) :
    (c.result = some true ↔
      (c.ExpectedInitial = [] ∧ c.ExpectedNonInitial = [] ∧
       c.UnexpectedInitial = [] ∧ c.UnexpectedNonInitial = [])) ∧
    (c.result = some false ↔
      (c.UnexpectedInitial ≠ [] ∨ c.UnexpectedNonInitial ≠ [])) ∧
    (c.result = none ↔
      ((c.ExpectedInitial ≠ [] ∨ c.ExpectedNonInitial ≠ []) ∧
       c.UnexpectedInitial = [] ∧ c.UnexpectedNonInitial = [])) ∧
    (∀ Es, (c.UnexpectedInitial ≠ [] ∨ c.UnexpectedNonInitial ≠ []) →
      (consumeAll c Es).result ≠ some true) := by
  refine ⟨result_true_iff c, result_false_iff c, result_none_iff c, ?_⟩
  intro Es h hres
  have hu : hasUnexpected (consumeAll c Es) := consumeAll_hasUnexpected c Es h
  rcases (result_true_iff _).mp hres with ⟨_, _, h3, h4⟩
  rcases hu with h' | h'
  · exact h' h3
  · exact h' h4

/-- C9 witness: the amended verdict applied at the counterexample state
with an empty further stream. -/
theorem spec_C9_result_verdict_witness :
    (consumeAll cexC9 []).result ≠ some true :=
  (spec_C9_result_verdict cexC9).2.2.2 [] (Or.inl (by decide))

theorem findIn_false_iff (l : List Event) (E : Event) :
    findIn l E = false ↔ countEvent E l = 0 := by
  induction l with
  | nil => simp [findIn, countEvent]
  | cons x xs ih =>
    by_cases hx : eventEq x E
    · simp [findIn, countEvent, List.filter_cons, hx]
    · simp only [Bool.not_eq_true] at hx
      simp only [findIn, List.any_cons, hx, Bool.false_or, countEvent,
        List.filter_cons, Bool.false_eq_true, if_false]
      exact ih

theorem countEvent_eraseFirst (l : List Event) (E : Event)
    (h : findIn l E = true) :
    countEvent E (eraseFirst l E) = countEvent E l - 1 := by
  induction l with
  | nil => simp [findIn] at h
  | cons x xs ih =>
    by_cases hx : eventEq x E
    · simp [eraseFirst, hx, countEvent, List.filter_cons]
    · simp only [Bool.not_eq_true] at hx
      have h' : findIn xs E = true := by
        simpa [findIn, hx] using h
      simp only [eraseFirst, hx, Bool.false_eq_true, if_false, countEvent,
        List.filter_cons]
      exact ih h'

/-- C10: an event present exactly once in `OptionalNonInitial` and absent
from `ExpectedNonInitial` is absorbed by its first non-initial
occurrence (the entry is erased), and a second occurrence of the same
event is recorded as unexpected. -/
theorem spec_C10_optional_absorbs_once (c : VerifyingConsumer) (E : Event)
    (h1 : findIn c.ExpectedNonInitial E = false)
    (h2 : countEvent E c.OptionalNonInitial = 1) :
    (c.consumeNonInitial E).OptionalNonInitial =
      eraseFirst c.OptionalNonInitial E ∧
    findIn (c.consumeNonInitial E).OptionalNonInitial E = false ∧
    ((c.consumeNonInitial E).consumeNonInitial E).UnexpectedNonInitial =
      c.UnexpectedNonInitial ++ [E] := by
  have hopt : findIn c.OptionalNonInitial E = true := by
    rcases Bool.eq_false_or_eq_true (findIn c.OptionalNonInitial E) with ht | hf
    · exact ht
    · rw [(findIn_false_iff _ _).mp hf] at h2
      exact absurd h2 (by simp)
  have hc1 : c.consumeNonInitial E =
      { c with OptionalNonInitial := eraseFirst c.OptionalNonInitial E } := by
    unfold VerifyingConsumer.consumeNonInitial
    rw [h1, hopt]
    simp
  have hcount : countEvent E (eraseFirst c.OptionalNonInitial E) = 0 := by
    rw [countEvent_eraseFirst _ _ hopt, h2]
  have hfind : findIn (eraseFirst c.OptionalNonInitial E) E = false :=
    (findIn_false_iff _ _).mpr hcount
  refine ⟨by rw [hc1], by rw [hc1]; exact hfind, ?_⟩
  rw [hc1]
  unfold VerifyingConsumer.consumeNonInitial
  simp only [h1, hfind]
  simp

/-- C10 witness: a consumer whose tolerance list holds one `Modified a`
absorbs the first occurrence and flags the second. -/
theorem spec_C10_optional_absorbs_once_witness :
    ((VerifyingConsumer.consumeNonInitial
        ⟨[], [], [{ Filename := "a", Kind := EventKind.Modified }], [], []⟩
        { Filename := "a", Kind := EventKind.Modified }).consumeNonInitial
        { Filename := "a", Kind := EventKind.Modified }).UnexpectedNonInitial =
      [] ++ [{ Filename := "a", Kind := EventKind.Modified }] :=
  (spec_C10_optional_absorbs_once
    ⟨[], [], [{ Filename := "a", Kind := EventKind.Modified }], [], []⟩
    { Filename := "a", Kind := EventKind.Modified }
    (by decide) (by decide)).2.2

theorem countKind_append (k : EventKind) (l1 l2 : List Event) :
    countKind k (l1 ++ l2) = countKind k l1 + countKind k l2 := by
  simp [countKind, List.filter_append]

theorem countKind_eq_zero (k : EventKind) (l : List Event)
    (h : ∀ e ∈ l, e.Kind ≠ k) : countKind k l = 0 := by
  simp only [countKind, List.length_eq_zero, List.filter_eq_nil_iff,
    decide_eq_true_eq]
  exact h

theorem scanEvents_kind (entries : List String) :
    ∀ e ∈ scanEvents entries, e.Kind = EventKind.Modified := by
  intro e he
  simp only [scanEvents, List.mem_map] at he
  rcases he with ⟨n, _, rfl⟩
  rfl

theorem liveStream_kind (actions : List FsAction) :
    ∀ e ∈ liveStream actions,
      e.Kind = EventKind.Modified ∨ e.Kind = EventKind.Removed := by
  induction actions with
  | nil => intro e he; simp [liveStream] at he
  | cons a rest ih =>
    intro e he
    rcases List.mem_append.mp he with he | he
    · cases a with
      | createEntry n =>
        simp only [liveEvent, List.mem_singleton] at he
        exact Or.inl (by rw [he])
      | modifyEntry n =>
        simp only [liveEvent, List.mem_singleton] at he
        exact Or.inl (by rw [he])
      | removeEntry n =>
        simp only [liveEvent, List.mem_singleton] at he
        exact Or.inr (by rw [he])
      | touchEntry n rn =>
        simp only [liveEvent] at he
        split at he
        · simp only [List.mem_singleton] at he
          exact Or.inl (by rw [he])
        · simp at he
    · exact ih e he

theorem countKind_scan_live_zero (entries : List String)
    (actions : List FsAction) (k : EventKind)
    (hk1 : k ≠ EventKind.Modified) (hk2 : k ≠ EventKind.Removed) :
    countKind k (scanEvents entries ++ liveStream actions) = 0 := by
  rw [countKind_append]
  have h1 : countKind k (scanEvents entries) = 0 := by
    apply countKind_eq_zero
    intro e he
    rw [scanEvents_kind entries e he]
    exact fun hc => hk1 hc.symm
  have h2 : countKind k (liveStream actions) = 0 := by
    apply countKind_eq_zero
    intro e he
    rcases liveStream_kind actions e he with h | h <;> rw [h]
    · exact fun hc => hk1 hc.symm
    · exact fun hc => hk2 hc.symm
  rw [h1, h2]

theorem runWatch_fst (entries : List String) (actions : List FsAction)
    (t : Termination) :
    (runWatch entries actions t).map Prod.fst =
      (scanEvents entries ++ liveStream actions) ++ terminalEvents t := by
  simp [runWatch, observedLive, initialBatch, List.map_append, List.map_map,
    Function.comp_def]

/-- C1: a watch disposed without having seen directory removal produces
exactly one `WatcherGotInvalidated` event, it carries the empty
filename, it is the last event of the stream, and (mirroring the
`InvalidatedWatcher` test) the verifying consumer expecting exactly that
one non-initial event reaches the verdict `true`. -/
theorem spec_C1_single_terminal_event (entries : List String)
    (actions : List FsAction) :
    countKind EventKind.WatcherGotInvalidated
        ((runWatch entries actions Termination.dispose).map Prod.fst) = 1 ∧
    ((runWatch entries actions Termination.dispose).map Prod.fst).getLast? =
      some { Filename := "", Kind := EventKind.WatcherGotInvalidated } ∧
    (consumeAll
        ⟨[], [{ Filename := "", Kind := EventKind.WatcherGotInvalidated }],
          [], [], []⟩
        (runWatch [] [] Termination.dispose)).result = some true := by
  refine ⟨?_, ?_, by decide⟩
  · rw [runWatch_fst, countKind_append,
      countKind_scan_live_zero entries actions _ (by decide) (by decide)]
    decide
  · rw [runWatch_fst]
    exact List.getLast?_concat _

/-- C2: removal of the watched directory terminates the stream with
`WatchedDirRemoved` immediately followed by `WatcherGotInvalidated`,
each occurring exactly once in the whole stream, each with empty
filename, with neither kind occurring earlier; and (mirroring the
`DeleteWatchedDir` test) the verifying consumer expecting exactly those
two non-initial events reaches the verdict `true`. -/
theorem spec_C2_dir_removal_sequence (entries : List String)
    (actions : List FsAction) :
    countKind EventKind.WatchedDirRemoved
        ((runWatch entries actions Termination.dirRemoved).map Prod.fst) = 1 ∧
    countKind EventKind.WatcherGotInvalidated
        ((runWatch entries actions Termination.dirRemoved).map Prod.fst) = 1 ∧
    (∃ pre,
      (runWatch entries actions Termination.dirRemoved).map Prod.fst =
        pre ++ [{ Filename := "", Kind := EventKind.WatchedDirRemoved },
                { Filename := "", Kind := EventKind.WatcherGotInvalidated }] ∧
      countKind EventKind.WatchedDirRemoved pre = 0 ∧
      countKind EventKind.WatcherGotInvalidated pre = 0) ∧
    (consumeAll
        ⟨[], [{ Filename := "", Kind := EventKind.WatchedDirRemoved },
              { Filename := "", Kind := EventKind.WatcherGotInvalidated }],
          [], [], []⟩
        (runWatch [] [] Termination.dirRemoved)).result = some true := by
  refine ⟨?_, ?_, ?_, by decide⟩
  · rw [runWatch_fst, countKind_append,
      countKind_scan_live_zero entries actions _ (by decide) (by decide)]
    decide
  · rw [runWatch_fst, countKind_append,
      countKind_scan_live_zero entries actions _ (by decide) (by decide)]
    decide
  · refine ⟨scanEvents entries ++ liveStream actions, runWatch_fst _ _ _,
      countKind_scan_live_zero entries actions _ (by decide) (by decide),
      countKind_scan_live_zero entries actions _ (by decide) (by decide)⟩

theorem map_false_snd (l : List Event) :
    ∀ p ∈ l.map (fun e => (e, false)), p.2 = false := by
  intro p hp
  simp only [List.mem_map] at hp
  rcases hp with ⟨e, _, rfl⟩
  rfl

theorem initialBatch_snd (entries : List String) :
    ∀ p ∈ initialBatch entries, p.2 = true := by
  intro p hp
  simp only [initialBatch, List.mem_map] at hp
  rcases hp with ⟨e, _, rfl⟩
  rfl

theorem get_append3_snd_true_iff (l1 l2 l3 : List (Event × Bool))
    (h1 : ∀ p ∈ l1, p.2 = true) (h2 : ∀ p ∈ l2, p.2 = false)
    (h3 : ∀ p ∈ l3, p.2 = false) (k : Nat)
    (hk : k < ((l1 ++ l2) ++ l3).length) :
    (((l1 ++ l2) ++ l3).get ⟨k, hk⟩).2 = true ↔ k < l1.length := by
  rw [List.get_eq_getElem]
  by_cases ha : k < l1.length
  · have hb : k < (l1 ++ l2).length := by
      rw [List.length_append]; omega
    rw [List.getElem_append_left hb, List.getElem_append_left ha]
    exact iff_of_true (h1 _ (List.getElem_mem ha)) ha
  · have hge : l1.length ≤ k := Nat.le_of_not_lt ha
    by_cases hb : k < (l1 ++ l2).length
    · rw [List.getElem_append_left hb, List.getElem_append_right hge]
      exact iff_of_false (by rw [h2 _ (List.getElem_mem _)]; simp) ha
    · have hge2 : (l1 ++ l2).length ≤ k := Nat.le_of_not_lt hb
      rw [List.getElem_append_right hge2]
      exact iff_of_false (by rw [h3 _ (List.getElem_mem _)]; simp) ha

theorem runWatch_snd_true_iff (entries : List String) (actions : List FsAction)
    (t : Termination) (k : Nat)
    (hk : k < (runWatch entries actions t).length) :
    ((runWatch entries actions t).get ⟨k, hk⟩).2 = true ↔
      k < (initialBatch entries).length :=
  get_append3_snd_true_iff (initialBatch entries)
    ((liveStream actions).map (fun e => (e, false)))
    ((terminalEvents t).map (fun e => (e, false)))
    (initialBatch_snd entries) (map_false_snd _) (map_false_snd _) k hk

/-- C3: in any delivered stream, an event with `isInitial = true` never
follows an event with `isInitial = false` — equivalently, every
non-initial event is observed only after the whole initial batch. -/
theorem spec_C3_initial_before_live (entries : List String)
    (actions : List FsAction) (t : Termination) (i j : Nat)
    (hi : i < (runWatch entries actions t).length)
    (hj : j < (runWatch entries actions t).length) (hij : i ≤ j)
    (h : ((runWatch entries actions t).get ⟨j, hj⟩).2 = true) :
    ((runWatch entries actions t).get ⟨i, hi⟩).2 = true := by
  have hjlt : j < (initialBatch entries).length :=
    (runWatch_snd_true_iff entries actions t j hj).mp h
  exact (runWatch_snd_true_iff entries actions t i hi).mpr
    (Nat.lt_of_le_of_lt hij hjlt)

/-- C3 witness: on a two-entry watch, position 1 being initial forces
position 0 to be initial as well. -/
theorem spec_C3_initial_before_live_witness :
    ((runWatch ["a", "b"] [] Termination.dispose).get ⟨0, by decide⟩).2 =
      true :=
  spec_C3_initial_before_live ["a", "b"] [] Termination.dispose 0 1
    (by decide) (by decide) (by decide) (by decide)

theorem filter_snd_map_true (l : List Event) :
    (l.map (fun e => (e, true))).filter (fun p => p.2) =
      l.map (fun e => (e, true)) := by
  induction l with
  | nil => rfl
  | cons x xs ih => simp [List.filter_cons, ih]

theorem filter_snd_map_false (l : List Event) :
    (l.map (fun e => (e, false))).filter (fun p => p.2) = [] := by
  induction l with
  | nil => rfl
  | cons x xs ih => simp [List.filter_cons, ih]

theorem initialEvents_createStream (waitForInitialSync : Bool)
    (entries : List String) (actions : List FsAction) (t : Termination) :
    initialEvents (createStream waitForInitialSync entries actions t) =
      scanEvents entries := by
  have hrw : createStream waitForInitialSync entries actions t =
      ((scanEvents entries).map (fun e => (e, true)) ++
        (liveStream actions).map (fun e => (e, false))) ++
      (terminalEvents t).map (fun e => (e, false)) := rfl
  rw [initialEvents, hrw, List.filter_append, List.filter_append,
    filter_snd_map_false, filter_snd_map_false, filter_snd_map_true]
  simp [List.map_map, Function.comp_def]

theorem countEvent_cons (E x : Event) (xs : List Event) :
    countEvent E (x :: xs) = (if x = E then 1 else 0) + countEvent E xs := by
  by_cases hx : x = E
  · subst hx
    simp [countEvent, List.filter_cons, (eventEq_iff_eq x x).mpr rfl,
      Nat.add_comm]
  · have hne : eventEq x E = false := by
      rcases Bool.eq_false_or_eq_true (eventEq x E) with ht | hf
      · exact absurd ((eventEq_iff_eq _ _).mp ht) hx
      · exact hf
    simp [countEvent, List.filter_cons, hne, hx]

theorem countEvent_scanEvents_zero (n : String) (entries : List String)
    (h : n ∉ entries) :
    countEvent { Filename := n, Kind := EventKind.Modified }
      (scanEvents entries) = 0 := by
  induction entries with
  | nil => rfl
  | cons m rest ih =>
    have h1 : n ∉ rest := fun hc => h (List.mem_cons_of_mem _ hc)
    have h2 : ({ Filename := m, Kind := EventKind.Modified } : Event) ≠
        { Filename := n, Kind := EventKind.Modified } := by
      intro hc
      have hmn : m = n := congrArg Event.Filename hc
      exact h (by rw [← hmn]; exact List.mem_cons_self m rest)
    show countEvent _
        ({ Filename := m, Kind := EventKind.Modified } :: scanEvents rest) = 0
    rw [countEvent_cons, if_neg h2, ih h1]

theorem countEvent_scanEvents (n : String) (entries : List String)
    (hnd : entries.Nodup) :
    countEvent { Filename := n, Kind := EventKind.Modified }
      (scanEvents entries) = if n ∈ entries then 1 else 0 := by
  induction entries with
  | nil => rfl
  | cons m rest ih =>
    rcases List.nodup_cons.mp hnd with ⟨hm, hrest⟩
    show countEvent _
        ({ Filename := m, Kind := EventKind.Modified } :: scanEvents rest) = _
    by_cases hmn : m = n
    · subst hmn
      rw [countEvent_cons, if_pos rfl, countEvent_scanEvents_zero m rest hm,
        if_pos (List.mem_cons_self m rest)]
    · have hne : ({ Filename := m, Kind := EventKind.Modified } : Event) ≠
          { Filename := n, Kind := EventKind.Modified } :=
        fun hc => hmn (congrArg Event.Filename hc)
      rw [countEvent_cons, if_neg hne, ih hrest]
      have hnm : ¬n = m := fun hc => hmn hc.symm
      by_cases hn : n ∈ rest <;> simp [List.mem_cons, hn, hnm]

/-- C4: for any set of distinct entries present at creation time, the
initial batch contains exactly one `Modified` event per entry and
nothing else, under both values of `waitForInitialSync`. -/
theorem spec_C4_initial_scan_complete (waitForInitialSync : Bool)
    (entries : List String) (hnd : entries.Nodup) (n : String)
    (actions : List FsAction) (t : Termination) :
    countEvent { Filename := n, Kind := EventKind.Modified }
        (initialEvents (createStream waitForInitialSync entries actions t)) =
      (if n ∈ entries then 1 else 0) ∧
    ∀ e ∈ initialEvents (createStream waitForInitialSync entries actions t),
      e.Kind = EventKind.Modified ∧ e.Filename ∈ entries := by
  rw [initialEvents_createStream]
  refine ⟨countEvent_scanEvents n entries hnd, ?_⟩
  intro e he
  simp only [scanEvents, List.mem_map] at he
  rcases he with ⟨m, hm, rfl⟩
  exact ⟨rfl, hm⟩

/-- C4 witness: the directory {a, b} yields exactly one initial
`Modified a`, under synchronous startup. -/
theorem spec_C4_initial_scan_complete_witness :
    countEvent { Filename := "a", Kind := EventKind.Modified }
        (initialEvents (createStream true ["a", "b"] []
          Termination.dispose)) =
      (if "a" ∈ ["a", "b"] then 1 else 0) :=
  (spec_C4_initial_scan_complete true ["a", "b"] (by decide) "a" []
    Termination.dispose).1

/-- C5: on a live watch over an empty directory, creating entries "a",
"b", "c" yields exactly the non-initial events `Modified a`,
`Modified b`, `Modified c`, and (mirroring the `AddFiles` test) the
verifying consumer expecting that set and nothing else reaches the
verdict `true`; the test's 3-second timeout is the harness's bound on
observing this eventual state. -/
theorem spec_C5_live_add :
    nonInitialEvents (observedLive []
        [FsAction.createEntry "a", FsAction.createEntry "b",
         FsAction.createEntry "c"]) =
      [{ Filename := "a", Kind := EventKind.Modified },
       { Filename := "b", Kind := EventKind.Modified },
       { Filename := "c", Kind := EventKind.Modified }] ∧
    (consumeAll
        ⟨[], [{ Filename := "a", Kind := EventKind.Modified },
              { Filename := "b", Kind := EventKind.Modified },
              { Filename := "c", Kind := EventKind.Modified }], [], [], []⟩
        (observedLive []
          [FsAction.createEntry "a", FsAction.createEntry "b",
           FsAction.createEntry "c"])).result = some true := by
  exact ⟨by decide, by decide⟩

/-- C6: on a live watch over a directory holding entry "a", the stream is
the initial `Modified a`, then the non-initial `Modified a` caused by
writing new content, then the non-initial `Removed a` caused by removing
the entry; the `ModifyFile` and `DeleteFile` consumers both reach the
verdict `true`. -/
theorem spec_C6_modify_then_remove :
    observedLive ["a"] [FsAction.modifyEntry "a", FsAction.removeEntry "a"] =
      [({ Filename := "a", Kind := EventKind.Modified }, true),
       ({ Filename := "a", Kind := EventKind.Modified }, false),
       ({ Filename := "a", Kind := EventKind.Removed }, false)] ∧
    (consumeAll
        ⟨[{ Filename := "a", Kind := EventKind.Modified }],
          [{ Filename := "a", Kind := EventKind.Modified }], [], [], []⟩
        (observedLive ["a"] [FsAction.modifyEntry "a"])).result = some true ∧
    (consumeAll
        ⟨[{ Filename := "a", Kind := EventKind.Modified }],
          [{ Filename := "a", Kind := EventKind.Removed }], [], [], []⟩
        (observedLive ["a"] [FsAction.removeEntry "a"])).result = some true := by
  exact ⟨by decide, by decide, by decide⟩

/-- C7: touching only the metadata of existing entry "a" — whether or not
the platform re-notifies with a duplicate `Modified` — never yields a
`Removed` event, every delivered event is a `Modified`, and the
`ChangeMetadata` consumer (which lists the duplicate `Modified a` as
optional) reaches the verdict `true` in both cases. -/
theorem spec_C7_metadata_tolerance (renotify : Bool) :
    (consumeAll
        ⟨[{ Filename := "a", Kind := EventKind.Modified }], [],
          [{ Filename := "a", Kind := EventKind.Modified }], [], []⟩
        (observedLive ["a"] [FsAction.touchEntry "a" renotify])).result =
      some true ∧
    countKind EventKind.Removed
        ((observedLive ["a"] [FsAction.touchEntry "a" renotify]).map
          Prod.fst) = 0 ∧
    ∀ p ∈ observedLive ["a"] [FsAction.touchEntry "a" renotify],
      p.1.Kind = EventKind.Modified := by
  cases renotify
  · exact ⟨by decide, by decide, by decide⟩
  · exact ⟨by decide, by decide, by decide⟩

/-- C7 witness: the re-notifying case evaluated concretely. -/
theorem spec_C7_metadata_tolerance_witness :
    (consumeAll
        ⟨[{ Filename := "a", Kind := EventKind.Modified }], [],
          [{ Filename := "a", Kind := EventKind.Modified }], [], []⟩
        (observedLive ["a"] [FsAction.touchEntry "a" true])).result =
      some true :=
  (spec_C7_metadata_tolerance true).1

end DirWatcher
